import Mathlib

/-!
Verification of the MCMC warm-up core in `src/xsection/include/common.cuh`.

The CUDA kernels are shallowly embedded as pure Lean functions.  Machine
`float` values are modelled by an idealized extended-rational type `F`:
finite values are exact rationals (no rounding), and the IEEE special
values `+inf`, `-inf` and `NaN` are represented explicitly, because the
reciprocal-caching optimization of `MetropolisHastingsStep` deliberately
produces infinities (`1 / 0.0f = +inf`) and the acceptance comparison's
behaviour on `NaN` (any comparison with `NaN` is false) is observable.
Signed zero is not modelled (there is a single zero, treated as `+0`).

A `curandStateXORWOW` stream is modelled as a pair of oracles (one for
the values produced by `curand_normal`, one for those produced by
`curand_uniform`) together with a position counter; each distribution
call consumes exactly one position of the underlying bit stream, which
is what the repository's own comment in `RandStateInit` asserts
(`uniform and normal XORWOW each use 32 bits from the sequence`).
-/

/-- Idealized IEEE-like float: exact finite rationals plus `inf s`
(`s = true` meaning negative infinity) and `nan`. -/
inductive F where
  | nan : F
  | inf : Bool → F
  | fin : ℚ → F
deriving DecidableEq

/-- IEEE-like addition on `F`: `NaN` propagates, opposite infinities give
`NaN`, an infinity absorbs finite values, finite addition is exact. -/
def F.add : F → F → F
  | .nan, _ => .nan
  | _, .nan => .nan
  | .inf s, .inf t => if s = t then .inf s else .nan
  | .inf s, .fin _ => .inf s
  | .fin _, .inf t => .inf t
  | .fin a, .fin b => .fin (a + b)

/-- IEEE-like multiplication on `F`: `NaN` propagates, `0 * inf = NaN`,
signs of infinities combine by xor, finite multiplication is exact. -/
def F.mul : F → F → F
  | .nan, _ => .nan
  | _, .nan => .nan
  | .inf s, .inf t => .inf (xor s t)
  | .inf s, .fin q => if q = 0 then .nan else .inf (xor s (decide (q < 0)))
  | .fin q, .inf t => if q = 0 then .nan else .inf (xor (decide (q < 0)) t)
  | .fin a, .fin b => .fin (a * b)

/-- IEEE-like division on `F`: `NaN` propagates, `inf / inf = NaN`,
`finite / inf = 0`, `x / 0 = ±inf` for `x ≠ 0` (unsigned zero, so
`1 / 0.0f = +inf` as in the CUDA code), `0 / 0 = NaN`, finite division
is exact. -/
def F.div : F → F → F
  | .nan, _ => .nan
  | _, .nan => .nan
  | .inf _, .inf _ => .nan
  | .inf s, .fin q => .inf (xor s (decide (q < 0)))
  | .fin _, .inf _ => .fin 0
  | .fin a, .fin b =>
      if b = 0 then (if a = 0 then .nan else .inf (decide (a < 0)))
      else .fin (a / b)

/-- IEEE-like `a <= b` on `F`: any comparison involving `NaN` is false
(so `x >= NaN` and `NaN >= x` are both false in the C code). -/
def F.ble : F → F → Bool
  | .nan, _ => false
  | _, .nan => false
  | .inf s, .inf t => s || !t
  | .inf s, .fin _ => s
  | .fin _, .inf t => !t
  | .fin a, .fin b => decide (a ≤ b)

instance : Add F := ⟨F.add⟩
instance : Mul F := ⟨F.mul⟩
instance : Div F := ⟨F.div⟩

/-- State of one lane's XORWOW generator, abstracted: the two oracles give
the sequence of values that `curand_normal` respectively `curand_uniform`
would produce at each position of the underlying bit stream, and `pos`
is the current position.  Each distribution call consumes one position. -/
structure curandStateXORWOW where
  normals : ℕ → ℚ
  uniforms : ℕ → ℚ
  pos : ℕ

/-- Draw one standard-normal value from the stream, advancing it by one
position (`curand_normal` in the CUDA code). -/
def curand_normal (s : curandStateXORWOW) : ℚ × curandStateXORWOW :=
  (s.normals s.pos, ⟨s.normals, s.uniforms, s.pos + 1⟩)

/-- Draw one uniform value from the stream, advancing it by one position
(`curand_uniform` in the CUDA code; the hardware draw lies in (0, 1]). -/
def curand_uniform (s : curandStateXORWOW) : ℚ × curandStateXORWOW :=
  (s.uniforms s.pos, ⟨s.normals, s.uniforms, s.pos + 1⟩)

/-- Type of the density functions bound to the template parameters
(`float (*)(float)` in the source). -/
abbrev PDF := F → F

/-- Embedding of `MetropolisHastingsStep` (common.cuh lines 152-165): draw
a normal offset, scale by `stepSize`, add to `*prevSample` to form the
proposal `nextSample`; evaluate `pdf` there; draw a uniform value; when
`nextPDF * (*invPrevPDF) >= u` replace the sample by the proposal and the
cache by `1 / nextPDF`, otherwise leave both unchanged.  Returns the new
`(*prevSample, *invPrevPDF, *randState)`. -/
def MetropolisHastingsStep (pdf : PDF) (prevSample invPrevPDF : F)
    (stepSize : F) (randState : curandStateXORWOW) :
    F × F × curandStateXORWOW :=
  let z := curand_normal randState
  let nextSample := prevSample + stepSize * F.fin z.1
  let nextPDF := pdf nextSample
  let u := curand_uniform z.2
  if F.ble (F.fin u.1) (nextPDF * invPrevPDF) then
    (nextSample, F.fin 1 / nextPDF, u.2)
  else
    (prevSample, invPrevPDF, u.2)

/-- Spec-side restatement of the single MH step, written from the words of
the specification (§4.3): form the proposal as
`currentSample + stepSize * normalDraw`, evaluate the density at the
proposal, compute the acceptance ratio as
`proposalDensity * cachedInverseCurrentDensity`, draw a uniform value, and
exactly when the ratio is greater than or equal to the uniform draw
replace the sample by the proposal and the cache by
`1 / proposalDensity`; otherwise leave both unchanged. -/
def MHStepSpec (density : PDF) (currentSample cachedInv : F)
    (stepSize : F) (stream : curandStateXORWOW) :
    F × F × curandStateXORWOW :=
  let z := curand_normal stream
  let proposal := currentSample + stepSize * F.fin z.1
  let proposalDensity := density proposal
  let ratio := proposalDensity * cachedInv
  let u := curand_uniform z.2
  if F.ble (F.fin u.1) ratio then
    (proposal, F.fin 1 / proposalDensity, u.2)
  else
    (currentSample, cachedInv, u.2)

/-- C1: one `MHStepEngine` call forms the proposal as
`currentSample + stepSize * normalDraw`, evaluates the density at the
proposal, computes the acceptance ratio as
`proposalDensity * cachedInverseCurrentDensity`, draws a uniform value,
and exactly when the ratio is at least that uniform draw replaces the
sample by the proposal and the cached inverse density by
`1 / proposalDensity`; otherwise it leaves both unchanged. -/
theorem MetropolisHastingsStep_matches_spec (pdf : PDF)
    (prevSample invPrevPDF stepSize : F) (randState : curandStateXORWOW) :
    MetropolisHastingsStep pdf prevSample invPrevPDF stepSize randState =
      MHStepSpec pdf prevSample invPrevPDF stepSize randState := rfl

/-- Pointwise update of a flat device array modelled as a function. -/
def upd {α : Type} (f : ℕ → α) (i : ℕ) (v : α) : ℕ → α :=
  fun j => if j = i then v else f j

/-- Sequential counted loop: `forLoop body n k a` runs
`body n; body (n+1); ...; body (n+k-1)` starting from `a`, the direct
translation of `for (int i = n; i < n + k; i++)`. -/
def forLoop {α : Type} (body : ℕ → α → α) : ℕ → ℕ → α → α
  | _, 0, a => a
  | n, k + 1, a => forLoop body (n + 1) k (body n a)

/-- C++ implicit conversion from a `float` argument to an `int` parameter:
truncation toward zero.  This is what happens when the kernel
`InitSampleArray`, whose `initSample` parameter has type `int`, is called
with a floating-point initial value. -/
def cppFloatToInt (q : ℚ) : ℤ :=
  if 0 ≤ q then ⌊q⌋ else ⌈q⌉

/-- Body of one thread of `InitSampleArray` (common.cuh lines 140-148):
`for (n = 0; n < nNucleons; n++) prevSample[totalThreads*n + threadId] = initSample`.
The `int` value `initSample` is converted to `float` on store (exact in
this idealized model). -/
def InitSampleArrayThread (prevSample : ℕ → F) (initSample : ℤ)
    (nNucleons totalThreads threadId : ℕ) : ℕ → F :=
  forLoop (fun n a => upd a (totalThreads * n + threadId) (F.fin initSample))
    0 nNucleons prevSample

/-- The whole `InitSampleArray` grid: every thread `0 ≤ t < totalThreads`
executes its body.  The threads write disjoint slots, so the sequential
order chosen here is immaterial. -/
def InitSampleArray (prevSample : ℕ → F) (initSample : ℤ)
    (nNucleons totalThreads : ℕ) : ℕ → F :=
  forLoop (fun t g => InitSampleArrayThread g initSample nNucleons totalThreads t)
    0 totalThreads prevSample

/-- One lane's local working state during warm-up: the register-resident
arrays `localPrevSample` and `localInvPrevPDF` and the local RNG state. -/
structure LocalState where
  sample : ℕ → F
  invPDF : ℕ → F
  rs : curandStateXORWOW

/-- Apply `MetropolisHastingsStep` to dimension `n` of the local state,
i.e. the call
`MetropolisHastingsStep<pdf>(&localPrevSample[n], &localInvPrevPDF[n], stepsize, &localRandState)`. -/
def MHStepAt (pdf : PDF) (stepsize : F) (n : ℕ) (st : LocalState) : LocalState :=
  let r := MetropolisHastingsStep pdf (st.sample n) (st.invPDF n) stepsize st.rs
  ⟨upd st.sample n r.1, upd st.invPDF n r.2.1, r.2.2⟩

/-- Embedding of the variadic `WarmupGibbs` recursion (common.cuh lines
183-194): update dimension `n` with the head density, then recurse on
`n + 1` with the remaining densities.  The empty-list case is unreachable
in the source (the base template has exactly one `PDF`). -/
def WarmupGibbs (stepsize : F) : ℕ → List PDF → LocalState → LocalState
  | _, [], st => st
  | n, pdf :: rest, st =>
      WarmupGibbs stepsize (n + 1) rest (MHStepAt pdf stepsize n st)

/-- Embedding of the variadic `WarmupCopy` recursion (common.cuh lines
168-181): `localPrevSample[n] = prevSample[totalThreads*n + threadId];`
`localInvPrevPDF[n] = 1.f / pdf(localPrevSample[n]);` then recurse on
`n + 1` with the remaining densities. -/
def WarmupCopy (totalThreads threadId : ℕ) (prevSample : ℕ → F) :
    ℕ → List PDF → (ℕ → F) × (ℕ → F) → (ℕ → F) × (ℕ → F)
  | _, [], a => a
  | n, pdf :: rest, a =>
      let v := prevSample (totalThreads * n + threadId)
      WarmupCopy totalThreads threadId prevSample (n + 1) rest
        (upd a.1 n v, upd a.2 n (F.fin 1 / pdf v))

/-- The copy-in loop of the homogeneous branch of `WarmupMetropolis`
(common.cuh lines 215-220): for each `n`,
`localPrevSample[n] = prevSample[totalThreads*n + threadId];`
`localInvPrevPDF[n] = 1 / pdf(localPrevSample[n]);`.  Local registers
start uninitialized, modelled by the junk value `F.nan`. -/
def WarmupCopyLoop (pdf : PDF) (totalThreads threadId nNucleons : ℕ)
    (prevSample : ℕ → F) : (ℕ → F) × (ℕ → F) :=
  forLoop
    (fun n a =>
      let v := prevSample (totalThreads * n + threadId)
      (upd a.1 n v, upd a.2 n (F.fin 1 / pdf v)))
    0 nNucleons (fun _ => F.nan, fun _ => F.nan)

/-- The per-iteration inner loop of the homogeneous branch (common.cuh
lines 229-233): one `MetropolisHastingsStep` per dimension, in index
order `n = 0, 1, ...`. -/
def GibbsSweepLoop (pdf : PDF) (stepsize : F) (nNucleons : ℕ)
    (st : LocalState) : LocalState :=
  forLoop (fun n s => MHStepAt pdf stepsize n s) 0 nNucleons st

/-- The write-back loop shared by both branches (common.cuh lines 238-242
and 264-268): `prevSample[totalThreads*n + threadId] = localPrevSample[n]`. -/
def WriteBackLoop (totalThreads threadId nNucleons : ℕ) (prevSample : ℕ → F)
    (localSample : ℕ → F) : ℕ → F :=
  forLoop (fun n g => upd g (totalThreads * n + threadId) (localSample n))
    0 nNucleons prevSample

/-- Local state of one lane after the homogeneous branch of
`WarmupMetropolis` has copied in and run `iterations` Gibbs sweeps
(common.cuh lines 204-234), before write-back. -/
def WarmupHomLocal (nNucleons totalThreads : ℕ) (pdf : PDF)
    (prevSample : ℕ → F) (stepsize : F) (rs0 : curandStateXORWOW)
    (iterations threadId : ℕ) : LocalState :=
  let c := WarmupCopyLoop pdf totalThreads threadId nNucleons prevSample
  forLoop (fun _ st => GibbsSweepLoop pdf stepsize nNucleons st)
    0 iterations ⟨c.1, c.2, rs0⟩

/-- One thread of the homogeneous branch of `WarmupMetropolis`
(common.cuh lines 201-243): load `randState[threadId]` and the lane's
sample slots, run the iterations, store the RNG state and samples back.
Returns the mutated `(prevSample, randState)` arrays. -/
def WarmupMetropolisHomThread (nNucleons totalThreads : ℕ) (pdf : PDF)
    (prevSample : ℕ → F) (stepsize : F) (randState : ℕ → curandStateXORWOW)
    (iterations threadId : ℕ) : (ℕ → F) × (ℕ → curandStateXORWOW) :=
  let st := WarmupHomLocal nNucleons totalThreads pdf prevSample stepsize
    (randState threadId) iterations threadId
  (WriteBackLoop totalThreads threadId nNucleons prevSample st.sample,
   upd randState threadId st.rs)

/-- Local state of one lane after the heterogeneous branch of
`WarmupMetropolis` has copied in (via `WarmupCopy`) and run `iterations`
`WarmupGibbs` sweeps (common.cuh lines 249-260), before write-back. -/
def WarmupHetLocal (totalThreads : ℕ) (pdfs : List PDF)
    (prevSample : ℕ → F) (stepsize : F) (rs0 : curandStateXORWOW)
    (iterations threadId : ℕ) : LocalState :=
  let c := WarmupCopy totalThreads threadId prevSample 0 pdfs
    (fun _ => F.nan, fun _ => F.nan)
  forLoop (fun _ st => WarmupGibbs stepsize 0 pdfs st)
    0 iterations ⟨c.1, c.2, rs0⟩

/-- One thread of the heterogeneous branch of `WarmupMetropolis`
(common.cuh lines 244-269).  The write-back loop is bounded by
`nNucleons`, while the copy and sweep recursions are driven by the
density list, exactly as in the source (the `static_assert` makes the
two counts equal in any instantiation that compiles). -/
def WarmupMetropolisHetThread (nNucleons totalThreads : ℕ) (pdfs : List PDF)
    (prevSample : ℕ → F) (stepsize : F) (randState : ℕ → curandStateXORWOW)
    (iterations threadId : ℕ) : (ℕ → F) × (ℕ → curandStateXORWOW) :=
  let st := WarmupHetLocal totalThreads pdfs prevSample stepsize
    (randState threadId) iterations threadId
  (WriteBackLoop totalThreads threadId nNucleons prevSample st.sample,
   upd randState threadId st.rs)

/-- The `if constexpr (sizeof...(pdfs) == 1)` dispatch of
`WarmupMetropolis` (common.cuh lines 201 and 244): a single density runs
the homogeneous branch, any other pack runs the heterogeneous branch. -/
def WarmupMetropolisThread (nNucleons totalThreads : ℕ) (pdfs : List PDF)
    (prevSample : ℕ → F) (stepsize : F) (randState : ℕ → curandStateXORWOW)
    (iterations threadId : ℕ) : (ℕ → F) × (ℕ → curandStateXORWOW) :=
  match pdfs with
  | [pdf] => WarmupMetropolisHomThread nNucleons totalThreads pdf
      prevSample stepsize randState iterations threadId
  | _ => WarmupMetropolisHetThread nNucleons totalThreads pdfs
      prevSample stepsize randState iterations threadId

/-- Modelled from the source's compile-time guard on `WarmupMetropolis`:
the instantiation with `nNucleons` dimensions and `nPdfs` template
densities compiles exactly when either the pack has one element
(homogeneous branch, common.cuh line 201, where the `static_assert` is
discarded) or `nNucleons == sizeof...(pdfs)` (the `static_assert` at
common.cuh line 248). -/
def WarmupInstantiates (nNucleons nPdfs : ℕ) : Bool :=
  if nPdfs = 1 then true else nNucleons = nPdfs

/-- Spec-side sweep, written from the words of §4.4: one `MHStepEngine`
update applied to every dimension `0, 1, 2, ...` in index order within a
single iteration, dimension `k` using the density `fs k`, the random
stream threaded through sequentially in that same order. -/
def GibbsSweepSpec (fs : ℕ → PDF) (stepsize : F) (count : ℕ)
    (st : LocalState) : LocalState :=
  forLoop (fun k s => MHStepAt (fs k) stepsize k s) 0 count st

/-- Default density used only to state `List.getD` lookups at in-range
indices; never reached by any theorem. -/
def defaultPDF : PDF := fun _ => F.nan

lemma upd_self {α : Type} (f : ℕ → α) (i : ℕ) (v : α) : upd f i v i = v := by
  simp [upd]

lemma upd_ne {α : Type} (f : ℕ → α) (i : ℕ) (v : α) (j : ℕ) (h : j ≠ i) :
    upd f i v j = f j := by
  simp [upd, h]

lemma forLoop_ind {α : Type} (P : ℕ → α → Prop) (body : ℕ → α → α) :
    ∀ (n k : ℕ) (a : α),
      (∀ m b, n ≤ m → m < n + k → P m b → P (m + 1) (body m b)) →
      P n a → P (n + k) (forLoop body n k a) := by
  intro n k
  induction k generalizing n with
  | zero => intro a _ ha; exact ha
  | succ k ih =>
      intro a h ha
      have h1 : P (n + 1) (body n a) := h n a le_rfl (by omega) ha
      have h2 := ih (n + 1) (body n a)
        (fun m b hm hm' hb => h m b (by omega) (by omega) hb) h1
      have : n + 1 + k = n + (k + 1) := by omega
      rw [this] at h2
      exact h2

lemma forLoop_congr {α : Type} (body1 body2 : ℕ → α → α) :
    ∀ (n k : ℕ) (a : α),
      (∀ m b, n ≤ m → m < n + k → body1 m b = body2 m b) →
      forLoop body1 n k a = forLoop body2 n k a := by
  intro n k
  induction k generalizing n with
  | zero => intro a _; rfl
  | succ k ih =>
      intro a h
      show forLoop body1 (n + 1) k (body1 n a) = forLoop body2 (n + 1) k (body2 n a)
      rw [h n a le_rfl (by omega)]
      exact ih (n + 1) (body2 n a) (fun m b hm hm' => h m b (by omega) (by omega))

lemma strided_index_inj (tT n1 t1 n2 t2 : ℕ) (h1 : t1 < tT) (h2 : t2 < tT)
    (h : tT * n1 + t1 = tT * n2 + t2) : n1 = n2 ∧ t1 = t2 := by
  have ht : t1 = t2 := by
    have e1 : (tT * n1 + t1) % tT = t1 := by
      rw [Nat.mul_add_mod]; exact Nat.mod_eq_of_lt h1
    have e2 : (tT * n2 + t2) % tT = t2 := by
      rw [Nat.mul_add_mod]; exact Nat.mod_eq_of_lt h2
    rw [← e1, ← e2, h]
  refine ⟨?_, ht⟩
  subst ht
  have hmul : tT * n1 = tT * n2 := by omega
  exact Nat.eq_of_mul_eq_mul_left (by omega) hmul

lemma strided_write_at (tT t nN : ℕ) (vals : ℕ → F) (g0 : ℕ → F)
    (ht : t < tT) (n : ℕ) (hn : n < nN) :
    forLoop (fun m g => upd g (tT * m + t) (vals m)) 0 nN g0 (tT * n + t) =
      vals n := by
  have h := forLoop_ind (fun m g => n < m → g (tT * n + t) = vals n)
    (fun m g => upd g (tT * m + t) (vals m)) 0 nN g0 ?_ ?_
  · exact h (by omega)
  · intro m b _ _ hb hlt
    show upd b (tT * m + t) (vals m) (tT * n + t) = vals n
    by_cases hmn : m = n
    · subst hmn; exact upd_self b (tT * m + t) (vals m)
    · have hne : tT * n + t ≠ tT * m + t := by
        intro he
        exact hmn ((strided_index_inj tT n t m t ht ht he).1.symm)
      rw [upd_ne b (tT * m + t) (vals m) (tT * n + t) hne]
      exact hb (by omega)
  · intro h; omega

lemma strided_write_ne (tT t nN : ℕ) (vals : ℕ → F) (g0 : ℕ → F) (j : ℕ)
    (hj : ∀ m, m < nN → j ≠ tT * m + t) :
    forLoop (fun m g => upd g (tT * m + t) (vals m)) 0 nN g0 j = g0 j := by
  have h := forLoop_ind (fun _ g => g j = g0 j)
    (fun m g => upd g (tT * m + t) (vals m)) 0 nN g0 ?_ rfl
  · exact h
  · intro m b _ hm hb
    show upd b (tT * m + t) (vals m) j = g0 j
    rw [upd_ne b (tT * m + t) (vals m) j (hj m (by omega))]
    exact hb

lemma mh_accepts (pdf : PDF) (s c ss : F) (rs : curandStateXORWOW)
    (h : F.ble (F.fin (rs.uniforms (rs.pos + 1)))
      (pdf (s + ss * F.fin (rs.normals rs.pos)) * c) = true) :
    MetropolisHastingsStep pdf s c ss rs =
      (s + ss * F.fin (rs.normals rs.pos),
       F.fin 1 / pdf (s + ss * F.fin (rs.normals rs.pos)),
       ⟨rs.normals, rs.uniforms, rs.pos + 2⟩) := by
  simp only [MetropolisHastingsStep, curand_normal, curand_uniform]
  rw [if_pos h]

lemma mh_rejects (pdf : PDF) (s c ss : F) (rs : curandStateXORWOW)
    (h : F.ble (F.fin (rs.uniforms (rs.pos + 1)))
      (pdf (s + ss * F.fin (rs.normals rs.pos)) * c) = false) :
    MetropolisHastingsStep pdf s c ss rs =
      (s, c, ⟨rs.normals, rs.uniforms, rs.pos + 2⟩) := by
  simp only [MetropolisHastingsStep, curand_normal, curand_uniform]
  rw [if_neg (by rw [h]; exact Bool.false_ne_true)]

lemma mh_rand_advance (pdf : PDF) (s c ss : F) (rs : curandStateXORWOW) :
    (MetropolisHastingsStep pdf s c ss rs).2.2 =
      ⟨rs.normals, rs.uniforms, rs.pos + 2⟩ := by
  by_cases h : F.ble (F.fin (rs.uniforms (rs.pos + 1)))
      (pdf (s + ss * F.fin (rs.normals rs.pos)) * c) = true
  · rw [mh_accepts pdf s c ss rs h]
  · rw [mh_rejects pdf s c ss rs (Bool.not_eq_true _ ▸ h)]

lemma mh_cache_consistent (pdf : PDF) (s c ss : F) (rs : curandStateXORWOW)
    (h : c = F.fin 1 / pdf s) :
    (MetropolisHastingsStep pdf s c ss rs).2.1 =
      F.fin 1 / pdf (MetropolisHastingsStep pdf s c ss rs).1 := by
  by_cases hb : F.ble (F.fin (rs.uniforms (rs.pos + 1)))
      (pdf (s + ss * F.fin (rs.normals rs.pos)) * c) = true
  · rw [mh_accepts pdf s c ss rs hb]
  · rw [mh_rejects pdf s c ss rs (Bool.not_eq_true _ ▸ hb)]
    exact h

lemma div_one_fin (c : ℚ) (hc : c ≠ 0) : F.fin 1 / F.fin c = F.fin (1 / c) := by
  show F.div (F.fin 1) (F.fin c) = F.fin (1 / c)
  simp [F.div, hc]

lemma replicate_getD {α : Type} (d x : α) :
    ∀ (nN m : ℕ), m < nN → (List.replicate nN x).getD m d = x := by
  intro nN
  induction nN with
  | zero => intro m hm; omega
  | succ k ih =>
      intro m hm
      cases m with
      | zero => rfl
      | succ j => exact ih j (by omega)

lemma forLoop_succ {α : Type} (body : ℕ → α → α) (n k : ℕ) (a : α) :
    forLoop body n (k + 1) a = forLoop body (n + 1) k (body n a) := rfl

lemma warmupCopy_eq (totalThreads threadId : ℕ) (prevSample : ℕ → F) :
    ∀ (pdfs : List PDF) (n : ℕ) (a : (ℕ → F) × (ℕ → F)),
      WarmupCopy totalThreads threadId prevSample n pdfs a =
        forLoop
          (fun m b =>
            (upd b.1 m (prevSample (totalThreads * m + threadId)),
             upd b.2 m (F.fin 1 /
               (pdfs.getD (m - n) defaultPDF)
                 (prevSample (totalThreads * m + threadId)))))
          n pdfs.length a := by
  intro pdfs
  induction pdfs with
  | nil => intro n a; rfl
  | cons p rest ih =>
      intro n a
      rw [List.length_cons, forLoop_succ]
      simp only [Nat.sub_self, List.getD_cons_zero]
      have hstep : WarmupCopy totalThreads threadId prevSample n (p :: rest) a =
          WarmupCopy totalThreads threadId prevSample (n + 1) rest
            (upd a.1 n (prevSample (totalThreads * n + threadId)),
             upd a.2 n (F.fin 1 / p (prevSample (totalThreads * n + threadId)))) := rfl
      rw [hstep, ih (n + 1)]
      refine forLoop_congr _ _ (n + 1) rest.length _ ?_
      intro m b hm _
      have hsub : m - n = (m - (n + 1)) + 1 := by omega
      rw [hsub, List.getD_cons_succ]

lemma warmupGibbs_eq (stepsize : F) :
    ∀ (pdfs : List PDF) (n : ℕ) (st : LocalState),
      WarmupGibbs stepsize n pdfs st =
        forLoop
          (fun m s => MHStepAt (pdfs.getD (m - n) defaultPDF) stepsize m s)
          n pdfs.length st := by
  intro pdfs
  induction pdfs with
  | nil => intro n st; rfl
  | cons p rest ih =>
      intro n st
      rw [List.length_cons, forLoop_succ]
      simp only [Nat.sub_self, List.getD_cons_zero]
      have hstep : WarmupGibbs stepsize n (p :: rest) st =
          WarmupGibbs stepsize (n + 1) rest (MHStepAt p stepsize n st) := rfl
      rw [hstep, ih (n + 1)]
      refine forLoop_congr _ _ (n + 1) rest.length _ ?_
      intro m s hm _
      have hsub : m - n = (m - (n + 1)) + 1 := by omega
      rw [hsub, List.getD_cons_succ]

lemma warmupGibbs_zero (stepsize : F) (pdfs : List PDF) (st : LocalState) :
    WarmupGibbs stepsize 0 pdfs st =
      GibbsSweepSpec (fun k => pdfs.getD k defaultPDF) stepsize
        pdfs.length st := by
  rw [warmupGibbs_eq]
  rfl

lemma sweep_rand_advance (fs : ℕ → PDF) (ss : F) :
    ∀ (count n : ℕ) (st : LocalState),
      (forLoop (fun k s => MHStepAt (fs k) ss k s) n count st).rs =
        ⟨st.rs.normals, st.rs.uniforms, st.rs.pos + 2 * count⟩ := by
  intro count
  induction count with
  | zero =>
      intro n st
      show st.rs = _
      have : st.rs.pos + 2 * 0 = st.rs.pos := by omega
      rw [this]
  | succ k ih =>
      intro n st
      rw [forLoop_succ, ih (n + 1)]
      have h1 : (MHStepAt (fs n) ss n st).rs =
          ⟨st.rs.normals, st.rs.uniforms, st.rs.pos + 2⟩ :=
        mh_rand_advance (fs n) (st.sample n) (st.invPDF n) ss st.rs
      rw [h1]
      have : st.rs.pos + 2 + 2 * k = st.rs.pos + 2 * (k + 1) := by omega
      rw [this]

lemma iter_rand_advance (d : ℕ) (B : LocalState → LocalState)
    (hB : ∀ st, (B st).rs = ⟨st.rs.normals, st.rs.uniforms, st.rs.pos + d⟩) :
    ∀ (iters n : ℕ) (st : LocalState),
      (forLoop (fun _ s => B s) n iters st).rs =
        ⟨st.rs.normals, st.rs.uniforms, st.rs.pos + d * iters⟩ := by
  intro iters
  induction iters with
  | zero =>
      intro n st
      show st.rs = _
      have : st.rs.pos + d * 0 = st.rs.pos := by omega
      rw [this]
  | succ k ih =>
      intro n st
      rw [forLoop_succ, ih (n + 1), hB st]
      have : st.rs.pos + d + d * k = st.rs.pos + d * (k + 1) := by ring
      rw [this]

/-- Invariant of §3 / C4: for every dimension `i` below `count`, the cached
inverse density equals `1 / density(currentSample)` for the density bound
to that dimension. -/
def CacheConsistent (fs : ℕ → PDF) (count : ℕ) (st : LocalState) : Prop :=
  ∀ i, i < count → st.invPDF i = F.fin 1 / fs i (st.sample i)

lemma stepAt_preserves_cache (fs : ℕ → PDF) (ss : F) (count m : ℕ)
    (hm : m < count) (st : LocalState) (h : CacheConsistent fs count st) :
    CacheConsistent fs count (MHStepAt (fs m) ss m st) := by
  intro i hi
  by_cases him : i = m
  · subst him
    show upd st.invPDF i
        ((MetropolisHastingsStep (fs i) (st.sample i) (st.invPDF i) ss st.rs).2.1) i =
      F.fin 1 / fs i (upd st.sample i
        ((MetropolisHastingsStep (fs i) (st.sample i) (st.invPDF i) ss st.rs).1) i)
    rw [upd_self, upd_self]
    exact mh_cache_consistent (fs i) (st.sample i) (st.invPDF i) ss st.rs (h i hi)
  · show upd st.invPDF m
        ((MetropolisHastingsStep (fs m) (st.sample m) (st.invPDF m) ss st.rs).2.1) i =
      F.fin 1 / fs i (upd st.sample m
        ((MetropolisHastingsStep (fs m) (st.sample m) (st.invPDF m) ss st.rs).1) i)
    rw [upd_ne st.invPDF m _ i him, upd_ne st.sample m _ i him]
    exact h i hi

lemma sweepSpec_preserves_cache (fs : ℕ → PDF) (ss : F) (count : ℕ)
    (st : LocalState) (h : CacheConsistent fs count st) :
    CacheConsistent fs count (GibbsSweepSpec fs ss count st) := by
  have hind := forLoop_ind (fun _ s => CacheConsistent fs count s)
    (fun k s => MHStepAt (fs k) ss k s) 0 count st ?_ h
  · exact hind
  · intro m b _ hm hb
    exact stepAt_preserves_cache fs ss count m (by omega) b hb

lemma copyLoop_cache (pdf : PDF) (tT tid nN : ℕ) (g : ℕ → F) :
    ∀ i, i < nN →
      (WarmupCopyLoop pdf tT tid nN g).2 i =
        F.fin 1 / pdf ((WarmupCopyLoop pdf tT tid nN g).1 i) := by
  have hind := forLoop_ind
    (fun m (a : (ℕ → F) × (ℕ → F)) => ∀ i, i < m → a.2 i = F.fin 1 / pdf (a.1 i))
    (fun n a =>
      (upd a.1 n (g (tT * n + tid)),
       upd a.2 n (F.fin 1 / pdf (g (tT * n + tid)))))
    0 nN (fun _ => F.nan, fun _ => F.nan) ?_ (by intro i hi; omega)
  · intro i hi
    exact hind i (by omega)
  · intro m b _ _ hb i hi
    show upd b.2 m (F.fin 1 / pdf (g (tT * m + tid))) i =
      F.fin 1 / pdf (upd b.1 m (g (tT * m + tid)) i)
    by_cases him : i = m
    · subst him
      rw [upd_self, upd_self]
    · rw [upd_ne _ _ _ _ him, upd_ne _ _ _ _ him]
      exact hb i (by omega)

lemma warmupCopy_cache (pdfs : List PDF) (tT tid : ℕ) (g : ℕ → F) :
    ∀ i, i < pdfs.length →
      (WarmupCopy tT tid g 0 pdfs (fun _ => F.nan, fun _ => F.nan)).2 i =
        F.fin 1 / (pdfs.getD i defaultPDF)
          ((WarmupCopy tT tid g 0 pdfs (fun _ => F.nan, fun _ => F.nan)).1 i) := by
  rw [warmupCopy_eq]
  have hind := forLoop_ind
    (fun m (a : (ℕ → F) × (ℕ → F)) =>
      ∀ i, i < m → a.2 i = F.fin 1 / (pdfs.getD i defaultPDF) (a.1 i))
    (fun m b =>
      (upd b.1 m (g (tT * m + tid)),
       upd b.2 m (F.fin 1 /
         (pdfs.getD (m - 0) defaultPDF) (g (tT * m + tid)))))
    0 pdfs.length (fun _ => F.nan, fun _ => F.nan) ?_ (by intro i hi; omega)
  · intro i hi
    exact hind i (by omega)
  · intro m b _ _ hb i hi
    show upd b.2 m (F.fin 1 / (pdfs.getD (m - 0) defaultPDF) (g (tT * m + tid))) i =
      F.fin 1 / (pdfs.getD i defaultPDF) (upd b.1 m (g (tT * m + tid)) i)
    by_cases him : i = m
    · subst him
      rw [upd_self, upd_self, Nat.sub_zero]
    · rw [upd_ne _ _ _ _ him, upd_ne _ _ _ _ him]
      exact hb i (by omega)

lemma F.mul_def (a b : F) : a * b = F.mul a b := rfl

lemma F.ble_fin_nan (q : ℚ) : F.ble (F.fin q) F.nan = false := rfl

/-- C2 (amended): `InitSampleArray` takes an `int` initial value; for every
integer initial value, every (dimension, lane) slot of the sample array
reads back exactly that value (as a float) immediately after the kernel,
with zero warm-up iterations. -/
theorem initializeChains_writes_int_value (g : ℕ → F) (init : ℤ)
    (nN tT n t : ℕ) (hn : n < nN) (ht : t < tT) :
    InitSampleArray g init nN tT (tT * n + t) = F.fin init := by
  have hind := forLoop_ind
    (fun m (arr : ℕ → F) => t < m → arr (tT * n + t) = F.fin init)
    (fun u arr => InitSampleArrayThread arr init nN tT u) 0 tT g ?_ ?_
  · exact hind (by omega)
  · intro m arr _ hm harr hlt
    show InitSampleArrayThread arr init nN tT m (tT * n + t) = F.fin init
    by_cases hmt : m = t
    · subst hmt
      exact strided_write_at tT m nN (fun _ => F.fin init) arr ht n hn
    · have hj : ∀ m', m' < nN → tT * n + t ≠ tT * m' + m := by
        intro m' _ heq
        exact hmt ((strided_index_inj tT n t m' m ht (by omega) heq).2.symm)
      have hpres :=
        strided_write_ne tT m nN (fun _ => F.fin init) arr (tT * n + t) hj
      show forLoop _ 0 nN arr (tT * n + t) = F.fin init
      rw [hpres]
      have htm : t < m := by omega
      exact harr htm
  · intro h0; omega

/-- C2 witness: with one dimension, one lane and integer initial value 7,
slot (0, 0) reads back 7. -/
theorem initializeChains_writes_int_value_witness :
    0 < 1 ∧ InitSampleArray (fun _ => F.nan) 7 1 1 (1 * 0 + 0) = F.fin 7 :=
  ⟨by decide,
   initializeChains_writes_int_value (fun _ => F.nan) 7 1 1 0 0 (by decide)
     (by decide)⟩

/-- C2 counterexample: the claim quantifies over *float* initial values,
but the kernel's `initSample` parameter has type `int`, so calling it
with the float 1/2 truncates to 0: the slot reads back 0, not 1/2. -/
theorem initializeChains_float_truncation_cex :
    InitSampleArray (fun _ => F.nan) (cppFloatToInt ((1 : ℚ) / 2)) 1 1
        (1 * 0 + 0) ≠ F.fin ((1 : ℚ) / 2) := by
  have h0 : cppFloatToInt ((1 : ℚ) / 2) = 0 := by
    unfold cppFloatToInt
    rw [if_pos (by norm_num)]
    exact Int.floor_eq_zero_iff.mpr (by norm_num [Set.mem_Ico])
  show F.fin ((cppFloatToInt ((1 : ℚ) / 2) : ℤ) : ℚ) ≠ F.fin ((1 : ℚ) / 2)
  rw [h0]
  simp only [ne_eq, F.fin.injEq]
  norm_num

/-- C3: when the cached inverse density equals `1 / density(currentSample)`
with a strictly positive current density, and the density at the proposal
is at least the density at the current sample, the step accepts, for every
outcome of the normal draw and every uniform draw in [0, 1). -/
theorem mh_always_accepts_on_density_increase (pdf : PDF) (s ss : F)
    (c : ℚ) (rs : curandStateXORWOW) (hc : 0 < c) (hcur : pdf s = F.fin c)
    (hge : F.ble (pdf s) (pdf (s + ss * F.fin (rs.normals rs.pos))) = true)
    (hu0 : 0 ≤ rs.uniforms (rs.pos + 1))
    (hu1 : rs.uniforms (rs.pos + 1) < 1) :
    MetropolisHastingsStep pdf s (F.fin 1 / pdf s) ss rs =
      (s + ss * F.fin (rs.normals rs.pos),
       F.fin 1 / pdf (s + ss * F.fin (rs.normals rs.pos)),
       ⟨rs.normals, rs.uniforms, rs.pos + 2⟩) := by
  apply mh_accepts
  rw [hcur] at hge ⊢
  rw [div_one_fin c (ne_of_gt hc)]
  cases hp : pdf (s + ss * F.fin (rs.normals rs.pos)) with
  | nan =>
      rw [hp] at hge
      simp [F.ble] at hge
  | inf t =>
      rw [hp] at hge
      cases t with
      | true => simp [F.ble] at hge
      | false =>
          rw [F.mul_def]
          simp [F.mul, F.ble, hc.ne', not_lt.mpr hc.le]
  | fin q =>
      rw [hp] at hge
      have hcq : c ≤ q := by simpa [F.ble] using hge
      rw [F.mul_def]
      simp only [F.mul, F.ble]
      have hle : rs.uniforms (rs.pos + 1) ≤ q * (1 / c) := by
        rw [mul_one_div, le_div_iff₀ hc]
        nlinarith
      simpa using hle

/-- C3 witness: constant density 1, current sample 0, step size 1, uniform
draw 1/2 — all hypotheses hold and the step accepts. -/
theorem mh_always_accepts_on_density_increase_witness :
    (0 : ℚ) < 1 ∧
    MetropolisHastingsStep (fun _ => F.fin 1) (F.fin 0)
        (F.fin 1 / (fun _ => F.fin 1) (F.fin 0)) (F.fin 1)
        ⟨fun _ => 0, fun _ => (1 : ℚ) / 2, 0⟩ =
      (F.fin 0 + F.fin 1 * F.fin 0,
       F.fin 1 / (fun _ => F.fin 1) (F.fin 0 + F.fin 1 * F.fin 0),
       ⟨fun _ => 0, fun _ => (1 : ℚ) / 2, 0 + 2⟩) :=
  ⟨by norm_num,
   mh_always_accepts_on_density_increase (fun _ => F.fin 1) (F.fin 0)
     (F.fin 1) 1 ⟨fun _ => 0, fun _ => (1 : ℚ) / 2, 0⟩ (by norm_num) rfl
     (by simp [F.ble]) (by show (0 : ℚ) ≤ 1 / 2; norm_num)
     (by show (1 : ℚ) / 2 < 1; norm_num)⟩

/-- C4: the cached inverse density always equals `1 / density(currentSample)`
for the density bound to the dimension: it is preserved by a single
`MetropolisHastingsStep` whose precondition holds (replaced by
`1 / proposalDensity` on acceptance, untouched on rejection), and it holds
for every dimension of the lane-local state after the copy-in and after
every iteration of both the homogeneous and the heterogeneous warm-up. -/
theorem inverse_density_cache_invariant :
    (∀ (pdf : PDF) (s c ss : F) (rs : curandStateXORWOW),
       c = F.fin 1 / pdf s → pdf s ≠ F.fin 0 →
       (MetropolisHastingsStep pdf s c ss rs).2.1 =
         F.fin 1 / pdf (MetropolisHastingsStep pdf s c ss rs).1) ∧
    (∀ (pdf : PDF) (nN tT : ℕ) (g : ℕ → F) (ss : F)
       (rs0 : curandStateXORWOW) (iters tid : ℕ),
       CacheConsistent (fun _ => pdf) nN
         (WarmupHomLocal nN tT pdf g ss rs0 iters tid)) ∧
    (∀ (pdfs : List PDF) (tT : ℕ) (g : ℕ → F) (ss : F)
       (rs0 : curandStateXORWOW) (iters tid : ℕ),
       CacheConsistent (fun k => pdfs.getD k defaultPDF) pdfs.length
         (WarmupHetLocal tT pdfs g ss rs0 iters tid)) := by
  refine ⟨?_, ?_, ?_⟩
  · intro pdf s c ss rs h _
    exact mh_cache_consistent pdf s c ss rs h
  · intro pdf nN tT g ss rs0 iters tid
    have h0 : CacheConsistent (fun _ => pdf) nN
        ⟨(WarmupCopyLoop pdf tT tid nN g).1,
         (WarmupCopyLoop pdf tT tid nN g).2, rs0⟩ := by
      intro i hi
      exact copyLoop_cache pdf tT tid nN g i hi
    have hind := forLoop_ind (fun _ s => CacheConsistent (fun _ => pdf) nN s)
      (fun _ st => GibbsSweepLoop pdf ss nN st) 0 iters
      ⟨(WarmupCopyLoop pdf tT tid nN g).1,
       (WarmupCopyLoop pdf tT tid nN g).2, rs0⟩ ?_ h0
    · exact hind
    · intro m b _ _ hb
      exact sweepSpec_preserves_cache (fun _ => pdf) ss nN b hb
  · intro pdfs tT g ss rs0 iters tid
    have h0 : CacheConsistent (fun k => pdfs.getD k defaultPDF) pdfs.length
        ⟨(WarmupCopy tT tid g 0 pdfs (fun _ => F.nan, fun _ => F.nan)).1,
         (WarmupCopy tT tid g 0 pdfs (fun _ => F.nan, fun _ => F.nan)).2,
         rs0⟩ := by
      intro i hi
      exact warmupCopy_cache pdfs tT tid g i hi
    have hind := forLoop_ind
      (fun _ s => CacheConsistent (fun k => pdfs.getD k defaultPDF) pdfs.length s)
      (fun _ st => WarmupGibbs ss 0 pdfs st) 0 iters
      ⟨(WarmupCopy tT tid g 0 pdfs (fun _ => F.nan, fun _ => F.nan)).1,
       (WarmupCopy tT tid g 0 pdfs (fun _ => F.nan, fun _ => F.nan)).2,
       rs0⟩ ?_ h0
    · exact hind
    · intro m b _ _ hb
      show CacheConsistent (fun k => pdfs.getD k defaultPDF) pdfs.length
        (WarmupGibbs ss 0 pdfs b)
      rw [warmupGibbs_zero]
      exact sweepSpec_preserves_cache (fun k => pdfs.getD k defaultPDF) ss
        pdfs.length b hb

/-- C4 witness: constant density 1, one dimension, one lane and one
iteration; the single-step precondition holds and the invariant follows. -/
theorem inverse_density_cache_invariant_witness :
    ((fun _ => F.fin 1) (F.fin 0) ≠ F.fin 0) ∧
    ((MetropolisHastingsStep (fun _ => F.fin 1) (F.fin 0)
        (F.fin 1 / (fun _ => F.fin 1) (F.fin 0)) (F.fin 1)
        ⟨fun _ => 0, fun _ => (1 : ℚ) / 2, 0⟩).2.1 =
      F.fin 1 / (fun _ => F.fin 1)
        ((MetropolisHastingsStep (fun _ => F.fin 1) (F.fin 0)
          (F.fin 1 / (fun _ => F.fin 1) (F.fin 0)) (F.fin 1)
          ⟨fun _ => 0, fun _ => (1 : ℚ) / 2, 0⟩).1)) ∧
    CacheConsistent (fun _ => fun _ => F.fin 1) 1
      (WarmupHomLocal 1 1 (fun _ => F.fin 1) (fun _ => F.fin 0) (F.fin 1)
        ⟨fun _ => 0, fun _ => (1 : ℚ) / 2, 0⟩ 1 0) ∧
    CacheConsistent
      (fun k => ([fun _ => F.fin 1, fun _ => F.fin 1] : List PDF).getD k
        defaultPDF)
      ([fun _ => F.fin 1, fun _ => F.fin 1] : List PDF).length
      (WarmupHetLocal 1 ([fun _ => F.fin 1, fun _ => F.fin 1] : List PDF)
        (fun _ => F.fin 0) (F.fin 1)
        ⟨fun _ => 0, fun _ => (1 : ℚ) / 2, 0⟩ 1 0) :=
  ⟨by simp,
   inverse_density_cache_invariant.1 (fun _ => F.fin 1) (F.fin 0)
     (F.fin 1 / (fun _ => F.fin 1) (F.fin 0)) (F.fin 1)
     ⟨fun _ => 0, fun _ => (1 : ℚ) / 2, 0⟩ rfl (by simp),
   inverse_density_cache_invariant.2.1 (fun _ => F.fin 1) 1 1
     (fun _ => F.fin 0) (F.fin 1) ⟨fun _ => 0, fun _ => (1 : ℚ) / 2, 0⟩ 1 0,
   inverse_density_cache_invariant.2.2
     ([fun _ => F.fin 1, fun _ => F.fin 1] : List PDF) 1 (fun _ => F.fin 0)
     (F.fin 1) ⟨fun _ => 0, fun _ => (1 : ℚ) / 2, 0⟩ 1 0⟩

/-- C5: in each warm-up iteration, both the homogeneous inner loop and the
heterogeneous `WarmupGibbs` recursion update the dimensions by exactly one
`MetropolisHastingsStep` each, in index order 0, 1, 2, ..., with the random
stream threaded through the steps sequentially in that same order
(`GibbsSweepSpec`); in the heterogeneous case dimension `n` uses the n-th
function of the supplied list. -/
theorem gibbs_sweep_fixed_order :
    (∀ (pdf : PDF) (ss : F) (nN : ℕ) (st : LocalState),
       GibbsSweepLoop pdf ss nN st = GibbsSweepSpec (fun _ => pdf) ss nN st) ∧
    (∀ (pdfs : List PDF) (ss : F) (st : LocalState),
       WarmupGibbs ss 0 pdfs st =
         GibbsSweepSpec (fun k => pdfs.getD k defaultPDF) ss
           pdfs.length st) :=
  ⟨fun _ _ _ _ => rfl, fun pdfs ss st => warmupGibbs_zero ss pdfs st⟩

/-- C7: an instantiation of `WarmupMetropolis` whose density pack is
heterogeneous (size not 1) and whose size differs from the dimension count
fails the `static_assert`, i.e. does not compile; no such kernel can run. -/
theorem het_length_mismatch_rejected (nN nP : ℕ) (h1 : nP ≠ 1)
    (h2 : nN ≠ nP) : WarmupInstantiates nN nP = false := by
  unfold WarmupInstantiates
  rw [if_neg h1]
  simp [h2]

/-- C7 witness: 3 dimensions with a pack of 2 densities does not compile. -/
theorem het_length_mismatch_rejected_witness :
    (2 : ℕ) ≠ 1 ∧ (3 : ℕ) ≠ 2 ∧ WarmupInstantiates 3 2 = false :=
  ⟨by decide, by decide, het_length_mismatch_rejected 3 2 (by decide) (by decide)⟩

/-- C6: every sample-array access of the initializer and the warm-up driver
for dimension `n` of lane `t` uses the flat index `totalThreads * n + t`:
distinct lanes' index sets are disjoint (first conjunct); the initial fill
writes exactly the lane's slots (second and third conjuncts); both warm-up
branches write back exactly the lane's slots, leaving every other index
unchanged (fourth to seventh conjuncts); and the lane-local computation
reads the sample array only at the lane's own slots (last two
conjuncts). -/
theorem sample_array_strided_access :
    (∀ (tT t1 t2 n1 n2 : ℕ), t1 < tT → t2 < tT → t1 ≠ t2 →
       tT * n1 + t1 ≠ tT * n2 + t2) ∧
    (∀ (g : ℕ → F) (init : ℤ) (nN tT t n : ℕ), t < tT → n < nN →
       InitSampleArrayThread g init nN tT t (tT * n + t) = F.fin init) ∧
    (∀ (g : ℕ → F) (init : ℤ) (nN tT t j : ℕ),
       (∀ n, n < nN → j ≠ tT * n + t) →
       InitSampleArrayThread g init nN tT t j = g j) ∧
    (∀ (pdf : PDF) (nN tT : ℕ) (g : ℕ → F) (ss : F)
       (rsA : ℕ → curandStateXORWOW) (iters tid n : ℕ),
       tid < tT → n < nN →
       (WarmupMetropolisHomThread nN tT pdf g ss rsA iters tid).1
           (tT * n + tid) =
         (WarmupHomLocal nN tT pdf g ss (rsA tid) iters tid).sample n) ∧
    (∀ (pdf : PDF) (nN tT : ℕ) (g : ℕ → F) (ss : F)
       (rsA : ℕ → curandStateXORWOW) (iters tid j : ℕ),
       (∀ n, n < nN → j ≠ tT * n + tid) →
       (WarmupMetropolisHomThread nN tT pdf g ss rsA iters tid).1 j = g j) ∧
    (∀ (pdfs : List PDF) (nN tT : ℕ) (g : ℕ → F) (ss : F)
       (rsA : ℕ → curandStateXORWOW) (iters tid n : ℕ),
       tid < tT → n < nN →
       (WarmupMetropolisHetThread nN tT pdfs g ss rsA iters tid).1
           (tT * n + tid) =
         (WarmupHetLocal tT pdfs g ss (rsA tid) iters tid).sample n) ∧
    (∀ (pdfs : List PDF) (nN tT : ℕ) (g : ℕ → F) (ss : F)
       (rsA : ℕ → curandStateXORWOW) (iters tid j : ℕ),
       (∀ n, n < nN → j ≠ tT * n + tid) →
       (WarmupMetropolisHetThread nN tT pdfs g ss rsA iters tid).1 j = g j) ∧
    (∀ (pdf : PDF) (nN tT : ℕ) (g1 g2 : ℕ → F) (ss : F)
       (rs0 : curandStateXORWOW) (iters tid : ℕ),
       (∀ n, n < nN → g1 (tT * n + tid) = g2 (tT * n + tid)) →
       WarmupHomLocal nN tT pdf g1 ss rs0 iters tid =
         WarmupHomLocal nN tT pdf g2 ss rs0 iters tid) ∧
    (∀ (pdfs : List PDF) (tT : ℕ) (g1 g2 : ℕ → F) (ss : F)
       (rs0 : curandStateXORWOW) (iters tid : ℕ),
       (∀ n, n < pdfs.length → g1 (tT * n + tid) = g2 (tT * n + tid)) →
       WarmupHetLocal tT pdfs g1 ss rs0 iters tid =
         WarmupHetLocal tT pdfs g2 ss rs0 iters tid) := by
  refine ⟨?_, ?_, ?_, ?_, ?_, ?_, ?_, ?_, ?_⟩
  · intro tT t1 t2 n1 n2 h1 h2 hne heq
    exact hne (strided_index_inj tT n1 t1 n2 t2 h1 h2 heq).2
  · intro g init nN tT t n ht hn
    exact strided_write_at tT t nN (fun _ => F.fin init) g ht n hn
  · intro g init nN tT t j hj
    exact strided_write_ne tT t nN (fun _ => F.fin init) g j hj
  · intro pdf nN tT g ss rsA iters tid n htid hn
    exact strided_write_at tT tid nN
      (WarmupHomLocal nN tT pdf g ss (rsA tid) iters tid).sample g htid n hn
  · intro pdf nN tT g ss rsA iters tid j hj
    exact strided_write_ne tT tid nN
      (WarmupHomLocal nN tT pdf g ss (rsA tid) iters tid).sample g j hj
  · intro pdfs nN tT g ss rsA iters tid n htid hn
    exact strided_write_at tT tid nN
      (WarmupHetLocal tT pdfs g ss (rsA tid) iters tid).sample g htid n hn
  · intro pdfs nN tT g ss rsA iters tid j hj
    exact strided_write_ne tT tid nN
      (WarmupHetLocal tT pdfs g ss (rsA tid) iters tid).sample g j hj
  · intro pdf nN tT g1 g2 ss rs0 iters tid hagree
    have hc : WarmupCopyLoop pdf tT tid nN g1 = WarmupCopyLoop pdf tT tid nN g2 := by
      refine forLoop_congr _ _ 0 nN _ ?_
      intro m b _ hm
      show (upd b.1 m (g1 (tT * m + tid)),
            upd b.2 m (F.fin 1 / pdf (g1 (tT * m + tid)))) =
        (upd b.1 m (g2 (tT * m + tid)),
         upd b.2 m (F.fin 1 / pdf (g2 (tT * m + tid))))
      rw [hagree m (by omega)]
    simp only [WarmupHomLocal]
    rw [hc]
  · intro pdfs tT g1 g2 ss rs0 iters tid hagree
    have hc : WarmupCopy tT tid g1 0 pdfs (fun _ => F.nan, fun _ => F.nan) =
        WarmupCopy tT tid g2 0 pdfs (fun _ => F.nan, fun _ => F.nan) := by
      rw [warmupCopy_eq, warmupCopy_eq]
      refine forLoop_congr _ _ 0 pdfs.length _ ?_
      intro m b _ hm
      show (upd b.1 m (g1 (tT * m + tid)),
            upd b.2 m (F.fin 1 /
              (pdfs.getD (m - 0) defaultPDF) (g1 (tT * m + tid)))) =
        (upd b.1 m (g2 (tT * m + tid)),
         upd b.2 m (F.fin 1 /
           (pdfs.getD (m - 0) defaultPDF) (g2 (tT * m + tid))))
      rw [hagree m (by omega)]
    simp only [WarmupHetLocal]
    rw [hc]

/-- C6 witness: with 2 lanes, lanes 0 and 1 never share a slot, and with one
dimension and one lane every fill, store and load hypothesis is
satisfiable. -/
theorem sample_array_strided_access_witness :
    ((0 : ℕ) < 2 ∧ 1 < 2 ∧ (0 : ℕ) ≠ 1 ∧ 2 * 0 + 0 ≠ 2 * 0 + 1) ∧
    ((0 : ℕ) < 1 ∧
      InitSampleArrayThread (fun _ => F.nan) 5 1 1 0 (1 * 0 + 0) = F.fin 5) ∧
    ((∀ n, n < 1 → (7 : ℕ) ≠ 1 * n + 0) ∧
      InitSampleArrayThread (fun _ => F.nan) 5 1 1 0 7 = (fun _ => F.nan) 7) ∧
    ((WarmupMetropolisHomThread 1 1 (fun _ => F.fin 1) (fun _ => F.fin 0)
        (F.fin 1) (fun _ => ⟨fun _ => 0, fun _ => (1 : ℚ) / 2, 0⟩) 1 0).1
        (1 * 0 + 0) =
      (WarmupHomLocal 1 1 (fun _ => F.fin 1) (fun _ => F.fin 0) (F.fin 1)
        ((fun _ => ⟨fun _ => 0, fun _ => (1 : ℚ) / 2, 0⟩ :
          ℕ → curandStateXORWOW) 0) 1 0).sample 0) ∧
    ((WarmupMetropolisHomThread 1 1 (fun _ => F.fin 1) (fun _ => F.fin 0)
        (F.fin 1) (fun _ => ⟨fun _ => 0, fun _ => (1 : ℚ) / 2, 0⟩) 1 0).1 7 =
      (fun _ => F.fin 0) 7) ∧
    ((WarmupMetropolisHetThread 2 1
        ([fun _ => F.fin 1, fun _ => F.fin 1] : List PDF) (fun _ => F.fin 0)
        (F.fin 1) (fun _ => ⟨fun _ => 0, fun _ => (1 : ℚ) / 2, 0⟩) 1 0).1
        (1 * 0 + 0) =
      (WarmupHetLocal 1 ([fun _ => F.fin 1, fun _ => F.fin 1] : List PDF)
        (fun _ => F.fin 0) (F.fin 1)
        ((fun _ => ⟨fun _ => 0, fun _ => (1 : ℚ) / 2, 0⟩ :
          ℕ → curandStateXORWOW) 0) 1 0).sample 0) ∧
    ((WarmupMetropolisHetThread 2 1
        ([fun _ => F.fin 1, fun _ => F.fin 1] : List PDF) (fun _ => F.fin 0)
        (F.fin 1) (fun _ => ⟨fun _ => 0, fun _ => (1 : ℚ) / 2, 0⟩) 1 0).1 7 =
      (fun _ => F.fin 0) 7) ∧
    (WarmupHomLocal 1 1 (fun _ => F.fin 1) (fun _ => F.fin 0) (F.fin 1)
        ⟨fun _ => 0, fun _ => (1 : ℚ) / 2, 0⟩ 1 0 =
      WarmupHomLocal 1 1 (fun _ => F.fin 1) (fun _ => F.fin 0) (F.fin 1)
        ⟨fun _ => 0, fun _ => (1 : ℚ) / 2, 0⟩ 1 0) ∧
    (WarmupHetLocal 1 ([fun _ => F.fin 1, fun _ => F.fin 1] : List PDF)
        (fun _ => F.fin 0) (F.fin 1)
        ⟨fun _ => 0, fun _ => (1 : ℚ) / 2, 0⟩ 1 0 =
      WarmupHetLocal 1 ([fun _ => F.fin 1, fun _ => F.fin 1] : List PDF)
        (fun _ => F.fin 0) (F.fin 1)
        ⟨fun _ => 0, fun _ => (1 : ℚ) / 2, 0⟩ 1 0) :=
  ⟨⟨by decide, by decide, by decide,
    sample_array_strided_access.1 2 0 1 0 0 (by decide) (by decide)
      (by decide)⟩,
   ⟨by decide,
    sample_array_strided_access.2.1 (fun _ => F.nan) 5 1 1 0 0 (by decide)
      (by decide)⟩,
   ⟨by decide,
    sample_array_strided_access.2.2.1 (fun _ => F.nan) 5 1 1 0 7 (by decide)⟩,
   sample_array_strided_access.2.2.2.1 (fun _ => F.fin 1) 1 1
     (fun _ => F.fin 0) (F.fin 1)
     (fun _ => ⟨fun _ => 0, fun _ => (1 : ℚ) / 2, 0⟩) 1 0 0 (by decide)
     (by decide),
   sample_array_strided_access.2.2.2.2.1 (fun _ => F.fin 1) 1 1
     (fun _ => F.fin 0) (F.fin 1)
     (fun _ => ⟨fun _ => 0, fun _ => (1 : ℚ) / 2, 0⟩) 1 0 7 (by decide),
   sample_array_strided_access.2.2.2.2.2.1
     ([fun _ => F.fin 1, fun _ => F.fin 1] : List PDF) 2 1 (fun _ => F.fin 0)
     (F.fin 1) (fun _ => ⟨fun _ => 0, fun _ => (1 : ℚ) / 2, 0⟩) 1 0 0
     (by decide) (by decide),
   sample_array_strided_access.2.2.2.2.2.2.1
     ([fun _ => F.fin 1, fun _ => F.fin 1] : List PDF) 2 1 (fun _ => F.fin 0)
     (F.fin 1) (fun _ => ⟨fun _ => 0, fun _ => (1 : ℚ) / 2, 0⟩) 1 0 7
     (by decide),
   sample_array_strided_access.2.2.2.2.2.2.2.1 (fun _ => F.fin 1) 1 1
     (fun _ => F.fin 0) (fun _ => F.fin 0) (F.fin 1)
     ⟨fun _ => 0, fun _ => (1 : ℚ) / 2, 0⟩ 1 0 (fun _ _ => rfl),
   sample_array_strided_access.2.2.2.2.2.2.2.2
     ([fun _ => F.fin 1, fun _ => F.fin 1] : List PDF) 1 (fun _ => F.fin 0)
     (fun _ => F.fin 0) (F.fin 1) ⟨fun _ => 0, fun _ => (1 : ℚ) / 2, 0⟩ 1 0
     (fun _ _ => rfl)⟩

lemma copy_replicate (f : PDF) (nN tT tid : ℕ) (g : ℕ → F) :
    WarmupCopy tT tid g 0 (List.replicate nN f)
        (fun _ => F.nan, fun _ => F.nan) =
      WarmupCopyLoop f tT tid nN g := by
  rw [warmupCopy_eq, List.length_replicate]
  simp only [WarmupCopyLoop]
  refine forLoop_congr _ _ 0 nN _ ?_
  intro m b _ hm
  rw [Nat.sub_zero, replicate_getD defaultPDF f nN m (by omega)]

lemma gibbs_replicate (f : PDF) (nN : ℕ) (ss : F) (st : LocalState) :
    WarmupGibbs ss 0 (List.replicate nN f) st = GibbsSweepLoop f ss nN st := by
  rw [warmupGibbs_zero, List.length_replicate]
  simp only [GibbsSweepSpec, GibbsSweepLoop]
  refine forLoop_congr _ _ 0 nN _ ?_
  intro m s _ hm
  rw [replicate_getD defaultPDF f nN m (by omega)]

/-- C8: the heterogeneous branch run with the same density repeated
`nNucleons` times produces bit-identical output sample slots and stream
state to the homogeneous branch with that single density, from the same
inputs (for `nNucleons ≥ 2`, where the dispatch takes the heterogeneous
branch). -/
theorem het_replicate_equals_hom (f : PDF) (nN tT : ℕ) (g : ℕ → F) (ss : F)
    (rsA : ℕ → curandStateXORWOW) (iters tid : ℕ) (h2 : 2 ≤ nN) :
    WarmupMetropolisHetThread nN tT (List.replicate nN f) g ss rsA iters tid =
      WarmupMetropolisHomThread nN tT f g ss rsA iters tid := by
  have hloc : WarmupHetLocal tT (List.replicate nN f) g ss (rsA tid) iters tid =
      WarmupHomLocal nN tT f g ss (rsA tid) iters tid := by
    simp only [WarmupHetLocal, WarmupHomLocal]
    rw [copy_replicate]
    refine forLoop_congr _ _ 0 iters _ ?_
    intro m st _ hm
    exact gibbs_replicate f nN ss st
  simp only [WarmupMetropolisHetThread, WarmupMetropolisHomThread]
  rw [hloc]

/-- C8 witness: two dimensions, constant density 1, one lane and one
iteration: the heterogeneous run with the density repeated twice equals
the homogeneous run. -/
theorem het_replicate_equals_hom_witness :
    2 ≤ 2 ∧
    WarmupMetropolisHetThread 2 1 (List.replicate 2 (fun _ => F.fin 1))
        (fun _ => F.fin 0) (F.fin 1)
        (fun _ => ⟨fun _ => 0, fun _ => (1 : ℚ) / 2, 0⟩) 1 0 =
      WarmupMetropolisHomThread 2 1 (fun _ => F.fin 1) (fun _ => F.fin 0)
        (F.fin 1) (fun _ => ⟨fun _ => 0, fun _ => (1 : ℚ) / 2, 0⟩) 1 0 :=
  ⟨by decide,
   het_replicate_equals_hom (fun _ => F.fin 1) 2 1 (fun _ => F.fin 0)
     (F.fin 1) (fun _ => ⟨fun _ => 0, fun _ => (1 : ℚ) / 2, 0⟩) 1 0
     (by decide)⟩

/-- C9 counterexample: with the density identically zero, the cached
inverse density is infinite (`1/0 = +inf`), the proposal is 1, yet the
step REJECTS: the acceptance product `0 * inf` is `NaN` and `NaN >= u` is
false, so the sample stays 0 instead of being replaced by the proposal —
refuting "accepts its proposal regardless of the proposal's density". -/
theorem zero_density_always_accepts_cex :
    (F.fin 1 / (fun _ => F.fin 0 : PDF) (F.fin 0) = F.inf false) ∧
    ((MetropolisHastingsStep (fun _ => F.fin 0) (F.fin 0)
        (F.fin 1 / (fun _ => F.fin 0 : PDF) (F.fin 0)) (F.fin 1)
        ⟨fun _ => 1, fun _ => (1 : ℚ) / 2, 0⟩).1 = F.fin 0) ∧
    (F.fin 0 + F.fin 1 *
        F.fin ((⟨fun _ => 1, fun _ => (1 : ℚ) / 2, 0⟩ :
          curandStateXORWOW).normals 0) = F.fin 1) ∧
    (F.fin 0 ≠ F.fin 1) := by
  refine ⟨rfl, rfl, ?_, by simp⟩
  show F.add (F.fin 0) (F.mul (F.fin 1) (F.fin 1)) = F.fin 1
  norm_num [F.add, F.mul]

/-- C9 (amended): a zero density at the current sample makes the cached
inverse density `+inf`; a subsequent step with this infinite cache accepts
its proposal regardless of the uniform draw whenever the proposal's
density is nonnegative and nonzero (positive finite or `+inf`).  When the
proposal's density is zero (or negative, or NaN) the acceptance product is
`NaN` (or `-inf`) and the comparison fails, so the step rejects; no
clamping of the reciprocal or of the ratio is performed anywhere. -/
theorem zero_density_infinite_cache_behavior :
    (F.fin 1 / F.fin 0 = F.inf false) ∧
    (∀ (pdf : PDF) (s ss : F) (rs : curandStateXORWOW),
       F.ble (F.fin 0) (pdf (s + ss * F.fin (rs.normals rs.pos))) = true →
       pdf (s + ss * F.fin (rs.normals rs.pos)) ≠ F.fin 0 →
       MetropolisHastingsStep pdf s (F.inf false) ss rs =
         (s + ss * F.fin (rs.normals rs.pos),
          F.fin 1 / pdf (s + ss * F.fin (rs.normals rs.pos)),
          ⟨rs.normals, rs.uniforms, rs.pos + 2⟩)) := by
  refine ⟨rfl, ?_⟩
  intro pdf s ss rs hpos hne
  apply mh_accepts
  cases hp : pdf (s + ss * F.fin (rs.normals rs.pos)) with
  | nan =>
      rw [hp] at hpos
      simp [F.ble] at hpos
  | inf t =>
      rw [hp] at hpos
      cases t with
      | true => simp [F.ble] at hpos
      | false =>
          rw [F.mul_def]
          simp [F.mul, F.ble]
  | fin q =>
      rw [hp] at hpos
      rw [hp] at hne
      have hq0 : q ≠ 0 := by
        intro h
        exact hne (by rw [h])
      have hqpos : (0 : ℚ) ≤ q := by simpa [F.ble] using hpos
      rw [F.mul_def]
      simp [F.mul, F.ble, hq0, not_lt.mpr hqpos]

/-- C9 amended-claim witness: density 1 at the proposal is positive, so a
step with infinite cached inverse density accepts. -/
theorem zero_density_infinite_cache_behavior_witness :
    (F.ble (F.fin 0)
        ((fun _ => F.fin 1 : PDF)
          (F.fin 0 + F.fin 1 *
            F.fin ((⟨fun _ => 0, fun _ => (1 : ℚ) / 2, 0⟩ :
              curandStateXORWOW).normals 0))) = true) ∧
    ((fun _ => F.fin 1 : PDF)
        (F.fin 0 + F.fin 1 *
          F.fin ((⟨fun _ => 0, fun _ => (1 : ℚ) / 2, 0⟩ :
            curandStateXORWOW).normals 0)) ≠ F.fin 0) ∧
    MetropolisHastingsStep (fun _ => F.fin 1) (F.fin 0) (F.inf false)
        (F.fin 1) ⟨fun _ => 0, fun _ => (1 : ℚ) / 2, 0⟩ =
      (F.fin 0 + F.fin 1 *
         F.fin ((⟨fun _ => 0, fun _ => (1 : ℚ) / 2, 0⟩ :
           curandStateXORWOW).normals 0),
       F.fin 1 / (fun _ => F.fin 1 : PDF)
         (F.fin 0 + F.fin 1 *
           F.fin ((⟨fun _ => 0, fun _ => (1 : ℚ) / 2, 0⟩ :
             curandStateXORWOW).normals 0)),
       ⟨fun _ => (0 : ℚ), fun _ => (1 : ℚ) / 2, 0 + 2⟩) :=
  ⟨by simp [F.ble], by simp,
   zero_density_infinite_cache_behavior.2 (fun _ => F.fin 1) (F.fin 0)
     (F.fin 1) ⟨fun _ => 0, fun _ => (1 : ℚ) / 2, 0⟩ (by simp [F.ble])
     (by simp)⟩

/-- C10: every `MetropolisHastingsStep` consumes exactly two draws — one
normal then one uniform — advancing the stream position by exactly 2
whether or not the proposal is accepted; consequently a warm-up run of
either branch advances each lane's stream position by exactly
`2 * nNucleons * iterations`, independently of acceptances and of the
sample values. -/
theorem stream_draw_accounting :
    (∀ (pdf : PDF) (s c ss : F) (rs : curandStateXORWOW),
       (MetropolisHastingsStep pdf s c ss rs).2.2 =
         ⟨rs.normals, rs.uniforms, rs.pos + 2⟩) ∧
    (∀ (pdf : PDF) (nN tT : ℕ) (g : ℕ → F) (ss : F)
       (rs0 : curandStateXORWOW) (iters tid : ℕ),
       (WarmupHomLocal nN tT pdf g ss rs0 iters tid).rs =
         ⟨rs0.normals, rs0.uniforms, rs0.pos + 2 * nN * iters⟩) ∧
    (∀ (pdfs : List PDF) (nN tT : ℕ) (g : ℕ → F) (ss : F)
       (rs0 : curandStateXORWOW) (iters tid : ℕ),
       pdfs.length = nN →
       (WarmupHetLocal tT pdfs g ss rs0 iters tid).rs =
         ⟨rs0.normals, rs0.uniforms, rs0.pos + 2 * nN * iters⟩) := by
  refine ⟨mh_rand_advance, ?_, ?_⟩
  · intro pdf nN tT g ss rs0 iters tid
    exact iter_rand_advance (2 * nN)
      (fun st => GibbsSweepLoop pdf ss nN st)
      (fun st => sweep_rand_advance (fun _ => pdf) ss nN 0 st) iters 0
      ⟨(WarmupCopyLoop pdf tT tid nN g).1,
       (WarmupCopyLoop pdf tT tid nN g).2, rs0⟩
  · intro pdfs nN tT g ss rs0 iters tid hlen
    subst hlen
    exact iter_rand_advance (2 * pdfs.length)
      (fun st => WarmupGibbs ss 0 pdfs st)
      (fun st => by
        show (WarmupGibbs ss 0 pdfs st).rs = _
        rw [warmupGibbs_zero]
        exact sweep_rand_advance (fun k => pdfs.getD k defaultPDF) ss
          pdfs.length 0 st) iters 0
      ⟨(WarmupCopy tT tid g 0 pdfs (fun _ => F.nan, fun _ => F.nan)).1,
       (WarmupCopy tT tid g 0 pdfs (fun _ => F.nan, fun _ => F.nan)).2, rs0⟩

/-- C10 witness: a heterogeneous list of two densities with `nNucleons = 2`
and one iteration advances the stream position by exactly 2 * 2 * 1. -/
theorem stream_draw_accounting_witness :
    (([fun _ => F.fin 1, fun _ => F.fin 1] : List PDF).length = 2) ∧
    (WarmupHetLocal 1 ([fun _ => F.fin 1, fun _ => F.fin 1] : List PDF)
        (fun _ => F.fin 0) (F.fin 1)
        ⟨fun _ => 0, fun _ => (1 : ℚ) / 2, 0⟩ 1 0).rs =
      ⟨fun _ => (0 : ℚ), fun _ => (1 : ℚ) / 2, 0 + 2 * 2 * 1⟩ :=
  ⟨rfl,
   stream_draw_accounting.2.2 ([fun _ => F.fin 1, fun _ => F.fin 1] : List PDF)
     2 1 (fun _ => F.fin 0) (F.fin 1) ⟨fun _ => 0, fun _ => (1 : ℚ) / 2, 0⟩
     1 0 rfl⟩
